import Mathlib

/-!
Shallow embedding of `src/manager.c` (a single-node SJF preemptive process
manager) and verification of its specification claims.

Modelling conventions:
* C `int` / `pid_t` / `time_t` values are modelled as `Int`.  The only place
  where the finite width of a C `int` matters behaviourally is the
  `INT_MAX` sentinel that initialises the minimum-runtime scan in
  `find_min_runtime_process`; it is kept as the literal `2147483647`.
* Each call to the OS primitive `kill(pid, sig)` is modelled by consulting an
  oracle `κ : Int → csignal → Bool` (`true` = the call succeeded, `false` =
  it returned -1) and is recorded in an output trace of `(pid, signal)`
  pairs, so that theorems can talk about which signals were sent.
* `fork()` is modelled by a parameter `fork_pid : Int`: the value the parent
  would see (`< 0` means fork failed, otherwise the child's pid).
* `time(NULL)` is modelled by a parameter `now : Int`; all calls to `time`
  within one operation observe the same instant.
* The global variable `elapsed_time` in the C source is a write-then-read
  temporary in every code path, so it is kept local here.
* The C loops `for (i = 0; i < MAX_PROCESSES; ++i) { if (p->pid == pid) {...
  return; } }` act on the first slot whose pid matches and then return;
  they are modelled as a first-index search (`find_pid_index`) followed by
  an update of that slot.
-/

/-- `process_status` from manager.c (RUNNING=0, READY=1, STOPPED=2,
TERMINATED=3, UNUSED=4). -/
inductive process_status : Type
  | RUNNING
  | READY
  | STOPPED
  | TERMINATED
  | UNUSED
deriving DecidableEq, Repr

/-- `process_record` from manager.c: pid, status, remaining_runtime. -/
structure process_record : Type where
  pid : Int
  status : process_status
  remaining_runtime : Int
deriving DecidableEq, Repr

instance : Inhabited process_record :=
  ⟨{ pid := 0, status := .UNUSED, remaining_runtime := 0 }⟩

/-- `MAX_PROCESSES` from manager.c. -/
def MAX_PROCESSES : Nat := 64

/-- The C `INT_MAX` sentinel used by `find_min_runtime_process`. -/
def C_INT_MAX : Int := 2147483647

/-- The mutable globals of manager.c: the process table, the index of the
running process (`-1` when none) and the dispatch clock `start_time`. -/
structure MState : Type where
  records : List process_record
  running_process_index : Int
  start_time : Int
deriving DecidableEq, Repr

/-- The state after `initialise_process_records()` at program start: all 64
slots `UNUSED` (pid and runtime are zero-initialised globals),
`running_process_index = -1`, `start_time = 0` (zero-initialised global). -/
def initial_state : MState :=
  { records := List.replicate MAX_PROCESSES default
    running_process_index := -1
    start_time := 0 }

/-- Index (as in the C loops, `-1` when absent) of the first record with the
given status; shared body of `get_unused_process_index` and
`get_terminated_process_index`. -/
def first_status_index (st : process_status) : List process_record → Int
  | [] => -1
  | p :: rest =>
    if p.status = st then 0
    else
      let r := first_status_index st rest
      if r < 0 then -1 else r + 1

/-- `get_unused_process_index` from manager.c. -/
def get_unused_process_index (recs : List process_record) : Int :=
  first_status_index .UNUSED recs

/-- `get_terminated_process_index` from manager.c. -/
def get_terminated_process_index (recs : List process_record) : Int :=
  first_status_index .TERMINATED recs

/-- The slot chosen by `perform_run` (manager.c lines 234-239): first
`UNUSED` slot, else first `TERMINATED` slot, else `-1`. -/
def alloc_index (recs : List process_record) : Int :=
  let index := get_unused_process_index recs
  if index < 0 then get_terminated_process_index recs else index

/-- Loop body of `find_min_runtime_process`: `i` is the absolute index of
the head of `l`; `min_runtime` and `min_index` are the loop accumulators. -/
def find_min_aux : List process_record → Nat → Int → Int → Int
  | [], _, _, min_index => min_index
  | p :: rest, i, min_runtime, min_index =>
    if p.status = .READY ∧ p.remaining_runtime < min_runtime then
      find_min_aux rest (i + 1) p.remaining_runtime (i : Int)
    else
      find_min_aux rest (i + 1) min_runtime min_index

/-- `find_min_runtime_process` from manager.c: index of the first READY slot
achieving the strictly smallest remaining runtime, scanning with the
accumulator initialised to `INT_MAX`; `-1` when no update ever happens. -/
def find_min_runtime_process (recs : List process_record) : Int :=
  find_min_aux recs 0 C_INT_MAX (-1)

/-- Index (`-1` when absent) of the first record whose pid equals `pid`;
models the `p->pid == pid` search loops of the signal handler and of
`perform_stop` / `perform_resume` / `perform_kill`. -/
def find_pid_index (pid : Int) : List process_record → Int
  | [] => -1
  | p :: rest =>
    if p.pid = pid then 0
    else
      let r := find_pid_index pid rest
      if r < 0 then -1 else r + 1

/-- The three signals the manager sends. -/
inductive csignal : Type
  | SIGSTOP
  | SIGCONT
  | SIGTERM
deriving DecidableEq, Repr

/-- Result of a C `atoi` on the digit part. -/
def atoi_digits : List Char → Int → Int
  | [], acc => acc
  | c :: cs, acc =>
    if c.isDigit then atoi_digits cs (acc * 10 + ((c.toNat - 48 : Nat) : Int))
    else acc

/-- Leading-whitespace skip of C `atoi`. -/
def atoi_skip_ws : List Char → List Char
  | [] => []
  | c :: cs =>
    if c = ' ' ∨ c = '\t' ∨ c = '\n' ∨ c = '\r' ∨ c = Char.ofNat 11 ∨ c = Char.ofNat 12 then
      atoi_skip_ws cs
    else c :: cs

/-- C `atoi`: skip whitespace, optional sign, then a maximal digit prefix;
`0` when no digits (overflow of the C `int` is not modelled: the budgets in
the claims are small). -/
def atoi (s : String) : Int :=
  match atoi_skip_ws s.toList with
  | [] => 0
  | c :: cs =>
    if c = '-' then - atoi_digits cs 0
    else if c = '+' then atoi_digits cs 0
    else atoi_digits (c :: cs) 0

/-- Second half of `scheduler()` (manager.c lines 194-212): pick the READY
slot with minimum remaining runtime, mark it RUNNING, point
`running_process_index` at it, send SIGCONT, and on success reset the
dispatch clock.  Returns the new state and the kill-call trace. -/
def scheduler_dispatch (κ : Int → csignal → Bool) (now : Int) (s : MState) :
    MState × List (Int × csignal) :=
  let min_index := find_min_runtime_process s.records
  if min_index < 0 then (s, [])
  else
    let mi := min_index.toNat
    let p := s.records.getD mi default
    let s1 : MState :=
      { records := s.records.set mi { p with status := .RUNNING }
        running_process_index := min_index
        start_time := s.start_time }
    if κ p.pid .SIGCONT then ({ s1 with start_time := now }, [(p.pid, .SIGCONT)])
    else (s1, [(p.pid, .SIGCONT)])

/-- `scheduler()` from manager.c: if a slot is running, SIGSTOP it (abort
the pass on failure), fold elapsed runtime, mark it READY and clear
`running_process_index`; then dispatch the READY slot with minimum
remaining runtime. -/
def scheduler (κ : Int → csignal → Bool) (now : Int) (s : MState) :
    MState × List (Int × csignal) :=
  if 0 ≤ s.running_process_index then
    let ri := s.running_process_index.toNat
    let p := s.records.getD ri default
    if κ p.pid .SIGSTOP then
      let elapsed := now - s.start_time
      let p1 := if 0 < elapsed then
          { p with remaining_runtime := p.remaining_runtime - elapsed }
        else p
      let s1 : MState :=
        { records := s.records.set ri { p1 with status := .READY }
          running_process_index := -1
          start_time := if 0 < elapsed then now else s.start_time }
      let out := scheduler_dispatch κ now s1
      (out.1, (p.pid, .SIGSTOP) :: out.2)
    else (s, [(p.pid, .SIGSTOP)])
  else scheduler_dispatch κ now s

/-- One reaped pid inside `sigchld_handler`: find the first slot with this
pid, mark it TERMINATED; if it was the running slot, fold elapsed runtime
and clear `running_process_index`. -/
def reap_one (now : Int) (pid : Int) (s : MState) : MState :=
  let i := find_pid_index pid s.records
  if 0 ≤ i then
    let n := i.toNat
    let p := s.records.getD n default
    let p1 := { p with status := process_status.TERMINATED }
    if i = s.running_process_index then
      let elapsed := now - s.start_time
      let p2 := if 0 < elapsed then
          { p1 with remaining_runtime := p1.remaining_runtime - elapsed }
        else p1
      { records := s.records.set n p2
        running_process_index := -1
        start_time := if 0 < elapsed then now else s.start_time }
    else { s with records := s.records.set n p1 }
  else s

/-- `sigchld_handler` from manager.c: reap every pending exited pid (the
`waitpid` loop yields the list `pids`), updating the table for each. -/
def sigchld_handler (now : Int) (pids : List Int) (s : MState) : MState :=
  pids.foldl (fun t pid => reap_one now pid t) s

/-- Outcomes of `perform_run` (the C function reports them on stderr). -/
inductive run_result : Type
  | invalid_args
  | invalid_runtime
  | table_full
  | fork_failed
  | sig_failed
  | ok
deriving DecidableEq, Repr

/-- Output of `perform_run`: the new manager state, the kill-call trace,
whether a child process was actually created (`fork` reached and
succeeded), and the reported outcome. -/
structure run_out : Type where
  state : MState
  sent : List (Int × csignal)
  spawned : Bool
  res : run_result
deriving DecidableEq, Repr

/-- `perform_run` from manager.c.  `args` are the whitespace tokens of the
command (`args[0] = "run"`); a C `NULL` entry `args[k]` corresponds to
`args.length ≤ k`.  The budget is read from `args[3]` by `atoi`. -/
def perform_run (κ : Int → csignal → Bool) (now : Int) (fork_pid : Int)
    (args : List String) (s : MState) : run_out :=
  if args.length < 4 then
    { state := s, sent := [], spawned := false, res := .invalid_args }
  else if atoi (args.getD 3 "") ≤ 0 then
    { state := s, sent := [], spawned := false, res := .invalid_runtime }
  else
    let index := alloc_index s.records
    if index < 0 then
      { state := s, sent := [], spawned := false, res := .table_full }
    else if fork_pid < 0 then
      { state := s, sent := [], spawned := false, res := .fork_failed }
    else
      let n := index.toNat
      let newrec : process_record :=
        { pid := fork_pid, status := .READY
          remaining_runtime := atoi (args.getD 3 "") }
      if s.running_process_index < 0 then
        let s1 : MState :=
          { records := s.records.set n { newrec with status := .RUNNING }
            running_process_index := index
            start_time := now }
        let out := scheduler κ now s1
        { state := out.1, sent := out.2, spawned := true, res := .ok }
      else
        let s1 : MState := { s with records := s.records.set n newrec }
        if κ fork_pid .SIGSTOP then
          let out := scheduler κ now s1
          { state := out.1, sent := (fork_pid, .SIGSTOP) :: out.2
            spawned := true, res := .ok }
        else
          { state := s1, sent := [(fork_pid, .SIGSTOP)]
            spawned := true, res := .sig_failed }

/-- Outcomes of `perform_stop` / `perform_resume` / `perform_kill` (the C
functions report them as one-line diagnostics). -/
inductive cmd_result : Type
  | bad_pid
  | not_found
  | invalid_state
  | sig_failed
  | ok
deriving DecidableEq, Repr

/-- `perform_list` from manager.c: the `(pid, status)` lines printed, one
per non-UNUSED slot in index order (the empty list corresponds to the
"No processes to list." message). -/
def perform_list (recs : List process_record) : List (Int × process_status) :=
  (recs.filter (fun p => p.status ≠ .UNUSED)).map (fun p => (p.pid, p.status))

/-- `perform_stop` from manager.c. -/
def perform_stop (κ : Int → csignal → Bool) (now : Int) (pid : Int)
    (s : MState) : MState × List (Int × csignal) × cmd_result :=
  if pid ≤ 0 then (s, [], .bad_pid)
  else
    let i := find_pid_index pid s.records
    if 0 ≤ i then
      let n := i.toNat
      let p := s.records.getD n default
      if p.status = .RUNNING ∨ p.status = .READY then
        if κ p.pid .SIGSTOP then
          let pS := { p with status := process_status.STOPPED }
          if i = s.running_process_index then
            let elapsed := now - s.start_time
            let p2 := if 0 < elapsed then
                { pS with remaining_runtime := pS.remaining_runtime - elapsed }
              else pS
            let s1 : MState :=
              { records := s.records.set n p2
                running_process_index := -1
                start_time := if 0 < elapsed then now else s.start_time }
            let out := scheduler κ now s1
            (out.1, (p.pid, .SIGSTOP) :: out.2, .ok)
          else
            ({ s with records := s.records.set n pS }, [(p.pid, .SIGSTOP)], .ok)
        else (s, [(p.pid, .SIGSTOP)], .sig_failed)
      else (s, [], .invalid_state)
    else (s, [], .not_found)

/-- `perform_resume` from manager.c. -/
def perform_resume (κ : Int → csignal → Bool) (now : Int) (pid : Int)
    (s : MState) : MState × List (Int × csignal) × cmd_result :=
  if pid ≤ 0 then (s, [], .bad_pid)
  else
    let i := find_pid_index pid s.records
    if 0 ≤ i then
      let n := i.toNat
      let p := s.records.getD n default
      if p.status = .STOPPED then
        let s1 : MState :=
          { s with records := s.records.set n { p with status := .READY } }
        let out := scheduler κ now s1
        (out.1, out.2, .ok)
      else (s, [], .invalid_state)
    else (s, [], .not_found)

/-- `perform_kill` from manager.c.  Note that the elapsed-time fold into the
killed slot is unconditional (it happens whether or not the killed slot is
the running one); only the `running_process_index` reset and the scheduler
call are conditional on `i == running_process_index`. -/
def perform_kill (κ : Int → csignal → Bool) (now : Int) (pid : Int)
    (s : MState) : MState × List (Int × csignal) × cmd_result :=
  if pid ≤ 0 then (s, [], .bad_pid)
  else
    let i := find_pid_index pid s.records
    if 0 ≤ i then
      let n := i.toNat
      let p := s.records.getD n default
      if p.status ≠ .TERMINATED then
        if κ p.pid .SIGTERM then
          let p1 := { p with status := process_status.TERMINATED }
          let elapsed := now - s.start_time
          let p2 := if 0 < elapsed then
              { p1 with remaining_runtime := p1.remaining_runtime - elapsed }
            else p1
          let s1 : MState :=
            { records := s.records.set n p2
              running_process_index := s.running_process_index
              start_time := if 0 < elapsed then now else s.start_time }
          if i = s.running_process_index then
            let out := scheduler κ now { s1 with running_process_index := -1 }
            (out.1, (p.pid, .SIGTERM) :: out.2, .ok)
          else (s1, [(p.pid, .SIGTERM)], .ok)
        else (s, [(p.pid, .SIGTERM)], .sig_failed)
      else (s, [], .invalid_state)
    else (s, [], .not_found)

/-- Loop of `perform_exit` over the table: SIGTERM every slot that is
neither UNUSED nor TERMINATED (a failed kill is only logged) and mark it
TERMINATED.  Returns the new table and the kill-call trace. -/
def perform_exit_loop (κ : Int → csignal → Bool) :
    List process_record → List process_record × List (Int × csignal)
  | [] => ([], [])
  | p :: rest =>
    let out := perform_exit_loop κ rest
    if p.status ≠ .UNUSED ∧ p.status ≠ .TERMINATED then
      ({ p with status := process_status.TERMINATED } :: out.1,
       (p.pid, .SIGTERM) :: out.2)
    else (p :: out.1, out.2)

/-- `perform_exit` from manager.c.  Note that it leaves
`running_process_index` and `start_time` untouched. -/
def perform_exit (κ : Int → csignal → Bool) (s : MState) :
    MState × List (Int × csignal) :=
  let out := perform_exit_loop κ s.records
  ({ s with records := out.1 }, out.2)

/-- One iteration tail of the manager's main loop (manager.c lines
516-528): if a process is running, fold elapsed wall-clock time into its
remaining runtime (the runtime-accounting fold); otherwise invoke the
scheduler. -/
def main_tick (κ : Int → csignal → Bool) (now : Int) (s : MState) :
    MState × List (Int × csignal) :=
  if 0 ≤ s.running_process_index then
    let ri := s.running_process_index.toNat
    let p := s.records.getD ri default
    let elapsed := now - s.start_time
    if 0 < elapsed then
      ({ records := s.records.set ri
            { p with remaining_runtime := p.remaining_runtime - elapsed }
         running_process_index := s.running_process_index
         start_time := now }, [])
    else (s, [])
  else scheduler κ now s

/-- Command dispatch of the manager's main loop (manager.c lines 497-514):
runs the handler for the tokenized command and reports whether the `exit`
flag was set (the loop breaks and the process stops). -/
def main_command_step (κ : Int → csignal → Bool) (now : Int) (fork_pid : Int)
    (args : List String) (s : MState) : MState × Bool :=
  let command := args.getD 0 ""
  if command = "run" then ((perform_run κ now fork_pid args s).state, false)
  else if command = "stop" then
    ((perform_stop κ now (atoi (args.getD 1 "")) s).1, false)
  else if command = "resume" then
    ((perform_resume κ now (atoi (args.getD 1 "")) s).1, false)
  else if command = "kill" then
    ((perform_kill κ now (atoi (args.getD 1 "")) s).1, false)
  else if command = "list" then (s, false)
  else if command = "exit" then ((perform_exit κ s).1, true)
  else (s, false)

/-! ### Basic list lemmas used throughout -/

theorem getD_set_self {α : Type} [Inhabited α] (l : List α) (i : Nat) (a : α)
    (h : i < l.length) : (l.set i a).getD i default = a := by
  induction l generalizing i with
  | nil => simp at h
  | cons x xs ih =>
    cases i with
    | zero => rfl
    | succ n =>
      simp only [List.length_cons] at h
      exact ih n (by omega)

theorem getD_set_ne {α : Type} [Inhabited α] (l : List α) (i j : Nat) (a : α)
    (h : i ≠ j) : (l.set i a).getD j default = l.getD j default := by
  induction l generalizing i j with
  | nil => rfl
  | cons x xs ih =>
    cases i with
    | zero =>
      cases j with
      | zero => exact absurd rfl h
      | succ m => rfl
    | succ n =>
      cases j with
      | zero => rfl
      | succ m => exact ih n m (by omega)

theorem getD_cons_succ {α : Type} [Inhabited α] (x : α) (xs : List α) (j : Nat) :
    (x :: xs).getD (j + 1) default = xs.getD j default := rfl

theorem getD_cons_zero {α : Type} [Inhabited α] (x : α) (xs : List α) :
    (x :: xs).getD 0 default = x := rfl

/-! ### Characterization of the search helpers -/

/-- `first_status_index` either reports `-1` with no matching slot, or the
lowest-index slot with the requested status. -/
theorem first_status_index_spec (st : process_status) (l : List process_record) :
    (first_status_index st l = -1 ∧
      ∀ i, i < l.length → (l.getD i default).status ≠ st) ∨
    (0 ≤ first_status_index st l ∧
      (first_status_index st l).toNat < l.length ∧
      (l.getD (first_status_index st l).toNat default).status = st ∧
      ∀ i, i < (first_status_index st l).toNat → (l.getD i default).status ≠ st) := by
  induction l with
  | nil =>
    left
    exact ⟨rfl, by intro i hi; simp at hi⟩
  | cons p rest ih =>
    by_cases hp : p.status = st
    · right
      simp only [first_status_index, if_pos hp]
      refine ⟨by omega, by simp, hp, ?_⟩
      intro i hi
      simp at hi
    · rcases ih with ⟨h1, h2⟩ | ⟨h1, h2, h3, h4⟩
      · left
        constructor
        · simp only [first_status_index, if_neg hp, h1]
          rfl
        · intro i hi
          cases i with
          | zero => exact hp
          | succ n =>
            simp only [List.length_cons] at hi
            exact h2 n (by omega)
      · right
        have hne : ¬ first_status_index st rest < 0 := by omega
        have hrw : first_status_index st (p :: rest) = first_status_index st rest + 1 := by
          simp only [first_status_index, if_neg hp, if_neg hne]
        have htn : (first_status_index st rest + 1).toNat
            = (first_status_index st rest).toNat + 1 := by omega
        rw [hrw, htn]
        refine ⟨by omega, by simp only [List.length_cons]; omega, h3, ?_⟩
        intro i hi
        cases i with
        | zero => exact hp
        | succ n => exact h4 n (by omega)

/-- When `find_pid_index` succeeds it names a valid slot holding the pid. -/
theorem find_pid_index_spec (pid : Int) (l : List process_record)
    (h : 0 ≤ find_pid_index pid l) :
    (find_pid_index pid l).toNat < l.length ∧
    (l.getD (find_pid_index pid l).toNat default).pid = pid := by
  induction l with
  | nil => simp [find_pid_index] at h
  | cons p rest ih =>
    by_cases hp : p.pid = pid
    · simp only [find_pid_index, if_pos hp]
      exact ⟨by simp, hp⟩
    · by_cases hr : find_pid_index pid rest < 0
      · simp only [find_pid_index, if_neg hp, if_pos hr] at h
        omega
      · have h0 : 0 ≤ find_pid_index pid rest := by omega
        have hrw : find_pid_index pid (p :: rest) = find_pid_index pid rest + 1 := by
          simp only [find_pid_index, if_neg hp, if_neg hr]
        obtain ⟨ih1, ih2⟩ := ih h0
        have htn : (find_pid_index pid rest + 1).toNat
            = (find_pid_index pid rest).toNat + 1 := by omega
        rw [hrw, htn]
        exact ⟨by simp only [List.length_cons]; omega, ih2⟩

/-- If every READY slot of `l` has runtime at least the accumulator
`min_runtime`, the scan never updates and returns the accumulator. -/
theorem find_min_aux_none (l : List process_record) (i : Nat) (mr mi : Int)
    (h : ∀ j, j < l.length → (l.getD j default).status = .READY →
      mr ≤ (l.getD j default).remaining_runtime) :
    find_min_aux l i mr mi = mi := by
  induction l generalizing i with
  | nil => rfl
  | cons p rest ih =>
    have hcond : ¬ (p.status = .READY ∧ p.remaining_runtime < mr) := by
      rintro ⟨h1, h2⟩
      have := h 0 (by simp) h1
      simp only [getD_cons_zero] at this
      omega
    simp only [find_min_aux, if_neg hcond]
    exact ih (i + 1) (fun j hj hr => h (j + 1) (by simpa using hj) hr)

/-- If some READY slot of `l` beats the accumulator `min_runtime`, the scan
returns (shifted by the absolute base `i`) the first index achieving the
minimum runtime among the READY slots that beat the accumulator. -/
theorem find_min_aux_found (l : List process_record) (i : Nat) (mr mi : Int)
    (h : ∃ j, j < l.length ∧ (l.getD j default).status = .READY ∧
        (l.getD j default).remaining_runtime < mr) :
    ∃ j, j < l.length ∧ find_min_aux l i mr mi = ((i + j : Nat) : Int) ∧
      (l.getD j default).status = .READY ∧
      (l.getD j default).remaining_runtime < mr ∧
      (∀ k, k < l.length → (l.getD k default).status = .READY →
        (l.getD j default).remaining_runtime ≤ (l.getD k default).remaining_runtime) ∧
      (∀ k, k < j → (l.getD k default).status = .READY →
        (l.getD j default).remaining_runtime < (l.getD k default).remaining_runtime) := by
  induction l generalizing i mr mi with
  | nil =>
    obtain ⟨j, hj, _⟩ := h
    simp at hj
  | cons p rest ih =>
    by_cases hc : p.status = .READY ∧ p.remaining_runtime < mr
    · simp only [find_min_aux, if_pos hc]
      by_cases hrest : ∃ j, j < rest.length ∧ (rest.getD j default).status = .READY ∧
          (rest.getD j default).remaining_runtime < p.remaining_runtime
      · obtain ⟨j, hj1, hj2, hj3, hj4, hj5, hj6⟩ := ih (i + 1) p.remaining_runtime (i : Int) hrest
        refine ⟨j + 1, by simpa using hj1, ?_, hj3,
          by simp only [getD_cons_succ]; omega, ?_, ?_⟩
        · rw [hj2]; congr 1; omega
        · intro k hk hkR
          cases k with
          | zero => simpa [getD_cons_zero, getD_cons_succ] using le_of_lt hj4
          | succ m =>
            simp only [List.length_cons] at hk
            simpa [getD_cons_succ] using hj5 m (by omega) (by simpa [getD_cons_succ] using hkR)
        · intro k hk hkR
          cases k with
          | zero => simpa [getD_cons_zero, getD_cons_succ] using hj4
          | succ m =>
            simpa [getD_cons_succ] using hj6 m (by omega) (by simpa [getD_cons_succ] using hkR)
      · push_neg at hrest
        have hnone : find_min_aux rest (i + 1) p.remaining_runtime (i : Int) = (i : Int) :=
          find_min_aux_none rest (i + 1) p.remaining_runtime (i : Int) hrest
        refine ⟨0, by simp, by simpa using hnone, hc.1, hc.2, ?_, ?_⟩
        · intro k hk hkR
          cases k with
          | zero => simp
          | succ m =>
            simp only [List.length_cons] at hk
            simpa [getD_cons_zero, getD_cons_succ] using
              hrest m (by omega) (by simpa [getD_cons_succ] using hkR)
        · intro k hk
          omega
    · simp only [find_min_aux, if_neg hc]
      have hrest : ∃ j, j < rest.length ∧ (rest.getD j default).status = .READY ∧
          (rest.getD j default).remaining_runtime < mr := by
        obtain ⟨j, hj1, hj2, hj3⟩ := h
        cases j with
        | zero =>
          exact absurd ⟨by simpa [getD_cons_zero] using hj2,
            by simpa [getD_cons_zero] using hj3⟩ hc
        | succ m =>
          simp only [List.length_cons] at hj1
          exact ⟨m, by omega, by simpa [getD_cons_succ] using hj2,
            by simpa [getD_cons_succ] using hj3⟩
      obtain ⟨j, hj1, hj2, hj3, hj4, hj5, hj6⟩ := ih (i + 1) mr mi hrest
      refine ⟨j + 1, by simpa using hj1, ?_, hj3, hj4, ?_, ?_⟩
      · rw [hj2]; congr 1; omega
      · intro k hk hkR
        cases k with
        | zero =>
          simp only [getD_cons_zero] at hkR
          have hge : mr ≤ p.remaining_runtime := by
            by_contra hlt
            exact hc ⟨hkR, by omega⟩
          simp only [getD_cons_zero, getD_cons_succ]
          omega
        | succ m =>
          simp only [List.length_cons] at hk
          simpa [getD_cons_succ] using hj5 m (by omega) (by simpa [getD_cons_succ] using hkR)
      · intro k hk hkR
        cases k with
        | zero =>
          simp only [getD_cons_zero] at hkR
          have hge : mr ≤ p.remaining_runtime := by
            by_contra hlt
            exact hc ⟨hkR, by omega⟩
          simp only [getD_cons_zero, getD_cons_succ]
          omega
        | succ m =>
          simpa [getD_cons_succ] using hj6 m (by omega) (by simpa [getD_cons_succ] using hkR)

/-- A successful minimum-runtime scan names a valid READY slot. -/
theorem find_min_valid (recs : List process_record)
    (h : 0 ≤ find_min_runtime_process recs) :
    (find_min_runtime_process recs).toNat < recs.length ∧
    (recs.getD (find_min_runtime_process recs).toNat default).status = .READY := by
  by_cases hex : ∃ j, j < recs.length ∧ (recs.getD j default).status = .READY ∧
      (recs.getD j default).remaining_runtime < C_INT_MAX
  · obtain ⟨j, hj1, hj2, hj3, hj4, _, _⟩ :=
      find_min_aux_found recs 0 C_INT_MAX (-1) hex
    have hval : find_min_runtime_process recs = (j : Int) := by
      simpa [find_min_runtime_process] using hj2
    rw [hval]
    simp only [Int.toNat_ofNat]
    exact ⟨hj1, hj3⟩
  · push_neg at hex
    have : find_min_runtime_process recs = -1 :=
      find_min_aux_none recs 0 C_INT_MAX (-1) hex
    omega

/-- A successful slot allocation names a valid UNUSED or TERMINATED slot. -/
theorem alloc_index_valid (recs : List process_record)
    (h : 0 ≤ alloc_index recs) :
    (alloc_index recs).toNat < recs.length ∧
    ((recs.getD (alloc_index recs).toNat default).status = .UNUSED ∨
     (recs.getD (alloc_index recs).toNat default).status = .TERMINATED) := by
  unfold alloc_index
  by_cases hu : get_unused_process_index recs < 0
  · simp only [if_pos hu]
    simp only [alloc_index, if_pos hu] at h
    rcases first_status_index_spec .TERMINATED recs with ⟨h1, _⟩ | ⟨_, h2, h3, _⟩
    · rw [get_terminated_process_index] at h; omega
    · exact ⟨h2, Or.inr h3⟩
  · simp only [if_neg hu]
    rcases first_status_index_spec .UNUSED recs with ⟨h1, _⟩ | ⟨_, h2, h3, _⟩
    · rw [get_unused_process_index] at hu; omega
    · exact ⟨h2, Or.inl h3⟩


/-! ### The running-slot invariant -/

/-- A running index `r` never exceeds the table length. -/
def RIdxBound (recs : List process_record) (r : Int) : Prop :=
  r < (recs.length : Int)

/-- Every RUNNING slot of `recs` is the one `r` points at (hence at most one
slot is RUNNING). -/
def PointerSound (recs : List process_record) (r : Int) : Prop :=
  ∀ i, i < recs.length → (recs.getD i default).status = .RUNNING →
    0 ≤ r ∧ r.toNat = i

/-- When the running index `r` is set, it points at a RUNNING slot. -/
def PointerLive (recs : List process_record) (r : Int) : Prop :=
  0 ≤ r → r.toNat < recs.length ∧ (recs.getD r.toNat default).status = .RUNNING

/-- Weak invariant, preserved by every operation including `perform_exit`. -/
def WInv (s : MState) : Prop :=
  RIdxBound s.records s.running_process_index ∧
  PointerSound s.records s.running_process_index

/-- The full invariant: at most one RUNNING slot, and `running_process_index`
is set iff it names exactly that slot. -/
def MInv (s : MState) : Prop :=
  WInv s ∧ PointerLive s.records s.running_process_index

/-- The invariant exactly as the spec words it: at most one slot RUNNING,
and `running_process_index` is non-negative iff exactly that slot is
RUNNING. -/
def ClaimInvariant (s : MState) : Prop :=
  (∀ i j, i < s.records.length → j < s.records.length →
    (s.records.getD i default).status = .RUNNING →
    (s.records.getD j default).status = .RUNNING → i = j) ∧
  (0 ≤ s.running_process_index ↔
    ∃ i, i < s.records.length ∧ (s.records.getD i default).status = .RUNNING) ∧
  (0 ≤ s.running_process_index →
    s.running_process_index.toNat < s.records.length ∧
    (s.records.getD s.running_process_index.toNat default).status = .RUNNING)

theorem claimInvariant_of_minv {s : MState} (h : MInv s) : ClaimInvariant s := by
  obtain ⟨⟨hB, hS⟩, hL⟩ := h
  refine ⟨?_, ⟨?_, ?_⟩, hL⟩
  · intro i j hi hj hri hrj
    have h1 := hS i hi hri
    have h2 := hS j hj hrj
    omega
  · intro h0
    obtain ⟨hlt, hrun⟩ := hL h0
    exact ⟨s.running_process_index.toNat, hlt, hrun⟩
  · rintro ⟨i, hi, hri⟩
    exact (hS i hi hri).1

/-! ### Building blocks for invariant preservation -/

theorem pointer_sound_set_nonrunning {recs : List process_record} {r : Int}
    (hS : PointerSound recs r) (n : Nat) (q : process_record)
    (hq : q.status ≠ .RUNNING) : PointerSound (recs.set n q) r := by
  intro i hi hr
  simp only [List.length_set] at hi
  by_cases hin : n = i
  · subst hin
    rw [getD_set_self recs n q hi] at hr
    exact absurd hr hq
  · rw [getD_set_ne recs n i q hin] at hr
    exact hS i hi hr

theorem norunning_after_set {recs : List process_record} {r : Int}
    (hS : PointerSound recs r) (n : Nat) (q : process_record)
    (hq : q.status ≠ .RUNNING) (hn : 0 ≤ r → r.toNat = n) :
    ∀ i, i < (recs.set n q).length →
      ((recs.set n q).getD i default).status ≠ .RUNNING := by
  intro i hi hr
  simp only [List.length_set] at hi
  by_cases hin : n = i
  · subst hin
    rw [getD_set_self recs n q hi] at hr
    exact hq hr
  · rw [getD_set_ne recs n i q hin] at hr
    obtain ⟨h0, hpt⟩ := hS i hi hr
    exact hin (by omega)

theorem pointer_sound_of_norunning {recs : List process_record} {r : Int}
    (h : ∀ i, i < recs.length → (recs.getD i default).status ≠ .RUNNING) :
    PointerSound recs r := by
  intro i hi hr
  exact absurd hr (h i hi)

theorem pointer_live_vacuous {recs : List process_record} {r : Int}
    (h : r < 0) : PointerLive recs r := by
  intro h0
  omega

theorem pointer_live_set_other {recs : List process_record} {r : Int}
    (hL : PointerLive recs r) (n : Nat) (q : process_record)
    (hne : 0 ≤ r → r.toNat ≠ n) : PointerLive (recs.set n q) r := by
  intro h0
  obtain ⟨hlt, hrun⟩ := hL h0
  refine ⟨by simpa using hlt, ?_⟩
  rw [getD_set_ne recs n r.toNat q (fun he => hne h0 he.symm)]
  exact hrun

theorem ridx_bound_set {recs : List process_record} {r : Int}
    (hB : RIdxBound recs r) (n : Nat) (q : process_record) :
    RIdxBound (recs.set n q) r := by
  show r < _
  simp only [List.length_set]
  exact hB

theorem ridx_bound_neg {recs : List process_record} {r : Int} (h : r < 0) :
    RIdxBound recs r := by
  have : (0 : Int) ≤ (recs.length : Int) := by positivity
  show r < _
  omega

/-! ### Invariant preservation, operation by operation -/

/-- Preservation through the dispatch half of the scheduler, starting from
any weakly-invariant state whose running index is cleared: afterwards even
the full invariant holds. -/
theorem scheduler_dispatch_pres (κ : Int → csignal → Bool) (now : Int)
    {s : MState} (hW : WInv s) (hneg : s.running_process_index < 0) :
    MInv (scheduler_dispatch κ now s).1 := by
  obtain ⟨hB, hS⟩ := hW
  unfold scheduler_dispatch
  by_cases hmin : find_min_runtime_process s.records < 0
  · simp only [if_pos hmin]
    exact ⟨⟨hB, hS⟩, pointer_live_vacuous hneg⟩
  · have h0 : 0 ≤ find_min_runtime_process s.records := by omega
    obtain ⟨hlt, _⟩ := find_min_valid s.records h0
    simp only [if_neg hmin]
    have hsound : PointerSound
        (s.records.set (find_min_runtime_process s.records).toNat
          { s.records.getD (find_min_runtime_process s.records).toNat default with
            status := .RUNNING })
        (find_min_runtime_process s.records) := by
      intro i hi hr
      simp only [List.length_set] at hi
      by_cases hin : (find_min_runtime_process s.records).toNat = i
      · exact ⟨h0, hin⟩
      · rw [getD_set_ne _ _ _ _ hin] at hr
        have := (hS i hi hr).1
        omega
    have hbound : RIdxBound
        (s.records.set (find_min_runtime_process s.records).toNat
          { s.records.getD (find_min_runtime_process s.records).toNat default with
            status := .RUNNING })
        (find_min_runtime_process s.records) := by
      show _ < _
      simp only [List.length_set]
      omega
    have hlive : PointerLive
        (s.records.set (find_min_runtime_process s.records).toNat
          { s.records.getD (find_min_runtime_process s.records).toNat default with
            status := .RUNNING })
        (find_min_runtime_process s.records) := by
      intro _
      refine ⟨by simpa using hlt, ?_⟩
      rw [getD_set_self _ _ _ hlt]
    by_cases hκ : κ (s.records.getD (find_min_runtime_process s.records).toNat default).pid
        .SIGCONT = true
    · simp only [if_pos hκ]
      exact ⟨⟨hbound, hsound⟩, hlive⟩
    · simp only [if_neg hκ]
      exact ⟨⟨hbound, hsound⟩, hlive⟩

/-- Preservation through a whole scheduler pass. -/
theorem scheduler_pres (κ : Int → csignal → Bool) (now : Int) {s : MState}
    (hW : WInv s) :
    WInv (scheduler κ now s).1 ∧
    (PointerLive s.records s.running_process_index →
      PointerLive (scheduler κ now s).1.records
        (scheduler κ now s).1.running_process_index) := by
  unfold scheduler
  by_cases hrun : 0 ≤ s.running_process_index
  · simp only [if_pos hrun]
    by_cases hκ : κ (s.records.getD s.running_process_index.toNat default).pid
        .SIGSTOP = true
    · simp only [if_pos hκ]
      have hnone := norunning_after_set hW.2 s.running_process_index.toNat
        (if 0 < now - s.start_time then
          { { s.records.getD s.running_process_index.toNat default with
              remaining_runtime :=
                (s.records.getD s.running_process_index.toNat default).remaining_runtime
                  - (now - s.start_time) } with status := process_status.READY }
        else
          { s.records.getD s.running_process_index.toNat default with
            status := process_status.READY })
        (by by_cases he : 0 < now - s.start_time <;> simp [he])
        (fun _ => rfl)
      have hmid := scheduler_dispatch_pres κ now
        (s := { records := s.records.set s.running_process_index.toNat
                  (if 0 < now - s.start_time then
                    { { s.records.getD s.running_process_index.toNat default with
                        remaining_runtime :=
                          (s.records.getD s.running_process_index.toNat default).remaining_runtime
                            - (now - s.start_time) } with status := process_status.READY }
                  else
                    { s.records.getD s.running_process_index.toNat default with
                      status := process_status.READY })
                running_process_index := -1
                start_time := if 0 < now - s.start_time then now else s.start_time })
        ⟨ridx_bound_neg (by norm_num), pointer_sound_of_norunning hnone⟩
        (by norm_num)
      refine ⟨?_, fun _ => ?_⟩
      · have h1 := hmid.1
        by_cases he : 0 < now - s.start_time <;> simp only [he, if_true, if_false] at h1 ⊢ <;>
          exact h1
      · have h2 := hmid.2
        by_cases he : 0 < now - s.start_time <;> simp only [he, if_true, if_false] at h2 ⊢ <;>
          exact h2
    · simp only [if_neg hκ]
      exact ⟨hW, fun h => h⟩
  · simp only [if_neg hrun]
    have := scheduler_dispatch_pres κ now hW (by omega)
    exact ⟨this.1, fun _ => this.2⟩

/-- Preservation through `perform_run`. -/
theorem perform_run_pres (κ : Int → csignal → Bool) (now fork_pid : Int)
    (args : List String) {s : MState} (hW : WInv s) :
    WInv (perform_run κ now fork_pid args s).state ∧
    (PointerLive s.records s.running_process_index →
      PointerLive (perform_run κ now fork_pid args s).state.records
        (perform_run κ now fork_pid args s).state.running_process_index) := by
  unfold perform_run
  by_cases h1 : args.length < 4
  · simp only [if_pos h1]
    exact ⟨hW, fun h => h⟩
  · simp only [if_neg h1]
    by_cases h2 : atoi (args.getD 3 "") ≤ 0
    · simp only [if_pos h2]
      exact ⟨hW, fun h => h⟩
    · simp only [if_neg h2]
      by_cases h3 : alloc_index s.records < 0
      · simp only [if_pos h3]
        exact ⟨hW, fun h => h⟩
      · simp only [if_neg h3]
        by_cases h4 : fork_pid < 0
        · simp only [if_pos h4]
          exact ⟨hW, fun h => h⟩
        · simp only [if_neg h4]
          obtain ⟨halloc_lt, halloc_st⟩ := alloc_index_valid s.records (by omega)
          by_cases h5 : s.running_process_index < 0
          · simp only [if_pos h5]
            have hsound : PointerSound
                (s.records.set (alloc_index s.records).toNat
                  { pid := fork_pid, status := .RUNNING
                    remaining_runtime := atoi (args.getD 3 "") })
                (alloc_index s.records) := by
              intro i hi hr
              simp only [List.length_set] at hi
              by_cases hin : (alloc_index s.records).toNat = i
              · exact ⟨by omega, hin⟩
              · rw [getD_set_ne _ _ _ _ hin] at hr
                have := (hW.2 i hi hr).1
                omega
            have hbound : RIdxBound
                (s.records.set (alloc_index s.records).toNat
                  { pid := fork_pid, status := .RUNNING
                    remaining_runtime := atoi (args.getD 3 "") })
                (alloc_index s.records) := by
              show _ < _
              simp only [List.length_set]
              omega
            have hlive : PointerLive
                (s.records.set (alloc_index s.records).toNat
                  { pid := fork_pid, status := .RUNNING
                    remaining_runtime := atoi (args.getD 3 "") })
                (alloc_index s.records) := by
              intro _
              refine ⟨by simpa using halloc_lt, ?_⟩
              rw [getD_set_self _ _ _ halloc_lt]
            refine ⟨(scheduler_pres κ now ⟨hbound, hsound⟩).1,
              fun _ => (scheduler_pres κ now ⟨hbound, hsound⟩).2 hlive⟩
          · simp only [if_neg h5]
            have hsound : PointerSound
                (s.records.set (alloc_index s.records).toNat
                  { pid := fork_pid, status := .READY
                    remaining_runtime := atoi (args.getD 3 "") })
                s.running_process_index :=
              pointer_sound_set_nonrunning hW.2 _ _ (by simp)
            have hbound : RIdxBound
                (s.records.set (alloc_index s.records).toNat
                  { pid := fork_pid, status := .READY
                    remaining_runtime := atoi (args.getD 3 "") })
                s.running_process_index := ridx_bound_set hW.1 _ _
            have hlive : PointerLive s.records s.running_process_index →
                PointerLive
                  (s.records.set (alloc_index s.records).toNat
                    { pid := fork_pid, status := .READY
                      remaining_runtime := atoi (args.getD 3 "") })
                  s.running_process_index := by
              intro hL
              apply pointer_live_set_other hL
              intro h0 heq
              obtain ⟨hlt2, hrun2⟩ := hL h0
              rw [heq] at hrun2
              rcases halloc_st with h | h <;> rw [h] at hrun2 <;> simp at hrun2
            by_cases h6 : κ fork_pid .SIGSTOP = true
            · simp only [if_pos h6]
              refine ⟨(scheduler_pres κ now ⟨hbound, hsound⟩).1,
                fun hL => (scheduler_pres κ now ⟨hbound, hsound⟩).2 (hlive hL)⟩
            · simp only [if_neg h6]
              exact ⟨⟨hbound, hsound⟩, hlive⟩

/-- Preservation through `perform_stop`. -/
theorem perform_stop_pres (κ : Int → csignal → Bool) (now pid : Int)
    {s : MState} (hW : WInv s) :
    WInv (perform_stop κ now pid s).1 ∧
    (PointerLive s.records s.running_process_index →
      PointerLive (perform_stop κ now pid s).1.records
        (perform_stop κ now pid s).1.running_process_index) := by
  unfold perform_stop
  by_cases h1 : pid ≤ 0
  · simp only [if_pos h1]
    exact ⟨hW, fun h => h⟩
  · simp only [if_neg h1]
    by_cases h2 : 0 ≤ find_pid_index pid s.records
    · simp only [if_pos h2]
      by_cases h3 : (s.records.getD (find_pid_index pid s.records).toNat default).status =
          .RUNNING ∨
          (s.records.getD (find_pid_index pid s.records).toNat default).status = .READY
      · simp only [if_pos h3]
        by_cases h4 : κ (s.records.getD (find_pid_index pid s.records).toNat default).pid
            .SIGSTOP = true
        · simp only [if_pos h4]
          by_cases h5 : find_pid_index pid s.records = s.running_process_index
          · simp only [if_pos h5]
            have hnone := norunning_after_set hW.2 (find_pid_index pid s.records).toNat
              (if 0 < now - s.start_time then
                { { s.records.getD (find_pid_index pid s.records).toNat default with
                    status := process_status.STOPPED } with
                  remaining_runtime :=
                    { s.records.getD (find_pid_index pid s.records).toNat default with
                      status := process_status.STOPPED }.remaining_runtime
                      - (now - s.start_time) }
              else
                { s.records.getD (find_pid_index pid s.records).toNat default with
                  status := process_status.STOPPED })
              (by by_cases he : 0 < now - s.start_time <;> simp [he])
              (fun _ => by omega)
            refine ⟨(scheduler_pres κ now
                ⟨ridx_bound_neg (by norm_num), pointer_sound_of_norunning hnone⟩).1,
              fun _ => (scheduler_pres κ now
                ⟨ridx_bound_neg (by norm_num), pointer_sound_of_norunning hnone⟩).2
                (pointer_live_vacuous (by norm_num))⟩
          · simp only [if_neg h5]
            refine ⟨⟨ridx_bound_set hW.1 _ _,
              pointer_sound_set_nonrunning hW.2 _ _ (by simp)⟩, ?_⟩
            intro hL
            apply pointer_live_set_other hL
            intro h0
            omega
        · simp only [if_neg h4]
          exact ⟨hW, fun h => h⟩
      · simp only [if_neg h3]
        exact ⟨hW, fun h => h⟩
    · simp only [if_neg h2]
      exact ⟨hW, fun h => h⟩

/-- Preservation through `perform_resume`. -/
theorem perform_resume_pres (κ : Int → csignal → Bool) (now pid : Int)
    {s : MState} (hW : WInv s) :
    WInv (perform_resume κ now pid s).1 ∧
    (PointerLive s.records s.running_process_index →
      PointerLive (perform_resume κ now pid s).1.records
        (perform_resume κ now pid s).1.running_process_index) := by
  unfold perform_resume
  by_cases h1 : pid ≤ 0
  · simp only [if_pos h1]
    exact ⟨hW, fun h => h⟩
  · simp only [if_neg h1]
    by_cases h2 : 0 ≤ find_pid_index pid s.records
    · simp only [if_pos h2]
      by_cases h3 : (s.records.getD (find_pid_index pid s.records).toNat default).status =
          .STOPPED
      · simp only [if_pos h3]
        have hsound : PointerSound
            (s.records.set (find_pid_index pid s.records).toNat
              { s.records.getD (find_pid_index pid s.records).toNat default with
                status := .READY })
            s.running_process_index :=
          pointer_sound_set_nonrunning hW.2 _ _ (by simp)
        have hbound : RIdxBound
            (s.records.set (find_pid_index pid s.records).toNat
              { s.records.getD (find_pid_index pid s.records).toNat default with
                status := .READY })
            s.running_process_index := ridx_bound_set hW.1 _ _
        have hlive : PointerLive s.records s.running_process_index →
            PointerLive
              (s.records.set (find_pid_index pid s.records).toNat
                { s.records.getD (find_pid_index pid s.records).toNat default with
                  status := .READY })
              s.running_process_index := by
          intro hL
          apply pointer_live_set_other hL
          intro h0 heq
          have hrun2 := (hL h0).2
          rw [heq, h3] at hrun2
          simp at hrun2
        refine ⟨(scheduler_pres κ now ⟨hbound, hsound⟩).1,
          fun hL => (scheduler_pres κ now ⟨hbound, hsound⟩).2 (hlive hL)⟩
      · simp only [if_neg h3]
        exact ⟨hW, fun h => h⟩
    · simp only [if_neg h2]
      exact ⟨hW, fun h => h⟩

/-- Preservation through `perform_kill`. -/
theorem perform_kill_pres (κ : Int → csignal → Bool) (now pid : Int)
    {s : MState} (hW : WInv s) :
    WInv (perform_kill κ now pid s).1 ∧
    (PointerLive s.records s.running_process_index →
      PointerLive (perform_kill κ now pid s).1.records
        (perform_kill κ now pid s).1.running_process_index) := by
  unfold perform_kill
  by_cases h1 : pid ≤ 0
  · simp only [if_pos h1]
    exact ⟨hW, fun h => h⟩
  · simp only [if_neg h1]
    by_cases h2 : 0 ≤ find_pid_index pid s.records
    · simp only [if_pos h2]
      by_cases h3 : (s.records.getD (find_pid_index pid s.records).toNat default).status ≠
          .TERMINATED
      · simp only [if_pos h3]
        by_cases h4 : κ (s.records.getD (find_pid_index pid s.records).toNat default).pid
            .SIGTERM = true
        · simp only [if_pos h4]
          by_cases h5 : find_pid_index pid s.records = s.running_process_index
          · simp only [if_pos h5]
            have hnone := norunning_after_set hW.2 (find_pid_index pid s.records).toNat
              (if 0 < now - s.start_time then
                { { s.records.getD (find_pid_index pid s.records).toNat default with
                    status := process_status.TERMINATED } with
                  remaining_runtime :=
                    { s.records.getD (find_pid_index pid s.records).toNat default with
                      status := process_status.TERMINATED }.remaining_runtime
                      - (now - s.start_time) }
              else
                { s.records.getD (find_pid_index pid s.records).toNat default with
                  status := process_status.TERMINATED })
              (by by_cases he : 0 < now - s.start_time <;> simp [he])
              (fun _ => by omega)
            refine ⟨(scheduler_pres κ now
                ⟨ridx_bound_neg (by norm_num), pointer_sound_of_norunning hnone⟩).1,
              fun _ => (scheduler_pres κ now
                ⟨ridx_bound_neg (by norm_num), pointer_sound_of_norunning hnone⟩).2
                (pointer_live_vacuous (by norm_num))⟩
          · simp only [if_neg h5]
            refine ⟨⟨ridx_bound_set hW.1 _ _,
              pointer_sound_set_nonrunning hW.2 _ _
                (by by_cases he : 0 < now - s.start_time <;> simp [he])⟩, ?_⟩
            intro hL
            apply pointer_live_set_other hL
            intro h0
            omega
        · simp only [if_neg h4]
          exact ⟨hW, fun h => h⟩
      · simp only [if_neg h3]
        exact ⟨hW, fun h => h⟩
    · simp only [if_neg h2]
      exact ⟨hW, fun h => h⟩

/-- Preservation through one reaped pid of the SIGCHLD handler. -/
theorem reap_one_pres (now pid : Int) {s : MState} (hW : WInv s) :
    WInv (reap_one now pid s) ∧
    (PointerLive s.records s.running_process_index →
      PointerLive (reap_one now pid s).records
        (reap_one now pid s).running_process_index) := by
  unfold reap_one
  by_cases h2 : 0 ≤ find_pid_index pid s.records
  · simp only [if_pos h2]
    by_cases h5 : find_pid_index pid s.records = s.running_process_index
    · simp only [if_pos h5]
      have hnone := norunning_after_set hW.2 (find_pid_index pid s.records).toNat
        (if 0 < now - s.start_time then
          { { s.records.getD (find_pid_index pid s.records).toNat default with
              status := process_status.TERMINATED } with
            remaining_runtime :=
              { s.records.getD (find_pid_index pid s.records).toNat default with
                status := process_status.TERMINATED }.remaining_runtime
                - (now - s.start_time) }
        else
          { s.records.getD (find_pid_index pid s.records).toNat default with
            status := process_status.TERMINATED })
        (by by_cases he : 0 < now - s.start_time <;> simp [he])
        (fun _ => by omega)
      exact ⟨⟨ridx_bound_neg (by norm_num), pointer_sound_of_norunning hnone⟩,
        fun _ => pointer_live_vacuous (by norm_num)⟩
    · simp only [if_neg h5]
      refine ⟨⟨ridx_bound_set hW.1 _ _,
        pointer_sound_set_nonrunning hW.2 _ _ (by simp)⟩, ?_⟩
      intro hL
      apply pointer_live_set_other hL
      intro h0
      omega
  · simp only [if_neg h2]
    exact ⟨hW, fun h => h⟩

/-- Preservation through a whole SIGCHLD handler pass. -/
theorem sigchld_handler_pres (now : Int) (pids : List Int) {s : MState}
    (hW : WInv s) :
    WInv (sigchld_handler now pids s) ∧
    (PointerLive s.records s.running_process_index →
      PointerLive (sigchld_handler now pids s).records
        (sigchld_handler now pids s).running_process_index) := by
  induction pids generalizing s with
  | nil => exact ⟨hW, fun h => h⟩
  | cons q qs ih =>
    have h1 := reap_one_pres now q hW
    have h2 := ih h1.1
    exact ⟨h2.1, fun hL => h2.2 (h1.2 hL)⟩

/-- Preservation through the periodic accounting step of the main loop. -/
theorem main_tick_pres (κ : Int → csignal → Bool) (now : Int) {s : MState}
    (hW : WInv s) :
    WInv (main_tick κ now s).1 ∧
    (PointerLive s.records s.running_process_index →
      PointerLive (main_tick κ now s).1.records
        (main_tick κ now s).1.running_process_index) := by
  unfold main_tick
  by_cases hrun : 0 ≤ s.running_process_index
  · simp only [if_pos hrun]
    by_cases he : 0 < now - s.start_time
    · simp only [if_pos he]
      constructor
      · refine ⟨ridx_bound_set hW.1 _ _, ?_⟩
        intro i hi hr
        simp only [List.length_set] at hi
        by_cases hin : s.running_process_index.toNat = i
        · exact ⟨hrun, hin⟩
        · rw [getD_set_ne _ _ _ _ hin] at hr
          exact hW.2 i hi hr
      · intro hL h0
        obtain ⟨hlt, hrunst⟩ := hL h0
        refine ⟨by simpa using hlt, ?_⟩
        rw [getD_set_self _ _ _ hlt]
        exact hrunst
    · simp only [if_neg he]
      exact ⟨hW, fun h => h⟩
  · simp only [if_neg hrun]
    have := scheduler_pres κ now hW
    exact ⟨this.1, this.2⟩

/-- The table after `perform_exit` keeps its length. -/
theorem perform_exit_loop_length (κ : Int → csignal → Bool)
    (l : List process_record) : (perform_exit_loop κ l).1.length = l.length := by
  induction l with
  | nil => rfl
  | cons p rest ih =>
    by_cases hc : p.status ≠ .UNUSED ∧ p.status ≠ .TERMINATED
    · simp only [perform_exit_loop, if_pos hc, List.length_cons, ih]
    · simp only [perform_exit_loop, if_neg hc, List.length_cons, ih]

/-- Pointwise effect of `perform_exit` on the table: a slot that was
neither UNUSED nor TERMINATED is marked TERMINATED, every other slot is
untouched. -/
theorem perform_exit_loop_getD (κ : Int → csignal → Bool)
    (l : List process_record) (j : Nat) (hj : j < l.length) :
    (perform_exit_loop κ l).1.getD j default =
      (if (l.getD j default).status ≠ .UNUSED ∧
          (l.getD j default).status ≠ .TERMINATED then
        { l.getD j default with status := .TERMINATED }
      else l.getD j default) := by
  induction l generalizing j with
  | nil => simp at hj
  | cons p rest ih =>
    by_cases hc : p.status ≠ .UNUSED ∧ p.status ≠ .TERMINATED
    · simp only [perform_exit_loop, if_pos hc]
      cases j with
      | zero => simp only [getD_cons_zero, if_pos hc]
      | succ m =>
        simp only [List.length_cons] at hj
        simpa only [getD_cons_succ] using ih m (by omega)
    · simp only [perform_exit_loop, if_neg hc]
      cases j with
      | zero => simp only [getD_cons_zero, if_neg hc]
      | succ m =>
        simp only [List.length_cons] at hj
        simpa only [getD_cons_succ] using ih m (by omega)

/-- After `perform_exit` no slot is RUNNING. -/
theorem perform_exit_norunning (κ : Int → csignal → Bool) (s : MState) :
    ∀ i, i < (perform_exit κ s).1.records.length →
      ((perform_exit κ s).1.records.getD i default).status ≠ .RUNNING := by
  intro i hi
  show ((perform_exit_loop κ s.records).1.getD i default).status ≠ .RUNNING
  have hi2 : i < (perform_exit_loop κ s.records).1.length := hi
  have hlen := perform_exit_loop_length κ s.records
  have hi' : i < s.records.length := by omega
  rw [perform_exit_loop_getD κ s.records i hi']
  by_cases hc : (s.records.getD i default).status ≠ .UNUSED ∧
      (s.records.getD i default).status ≠ .TERMINATED
  · rw [if_pos hc]
    simp
  · rw [if_neg hc]
    push_neg at hc
    by_cases hu : (s.records.getD i default).status = .UNUSED
    · rw [hu]; simp
    · rw [hc hu]; simp

/-- Preservation of the weak invariant through `perform_exit` (the full
invariant is in general lost there: the running index is not cleared). -/
theorem perform_exit_pres (κ : Int → csignal → Bool) {s : MState}
    (hW : WInv s) : WInv (perform_exit κ s).1 := by
  constructor
  · show s.running_process_index < _
    have := perform_exit_loop_length κ s.records
    show _ < ((perform_exit_loop κ s.records).1.length : Int)
    rw [this]
    exact hW.1
  · exact pointer_sound_of_norunning (perform_exit_norunning κ s)

/-! ### Reachable states -/

/-- States reachable by any sequence of manager operations: commands
(`run`, `stop`, `resume`, `kill`, `list`, `exit`), scheduler passes and
SIGCHLD exit-reaper passes, plus the main loop's periodic accounting step.
`perform_list` only reads the table, so its step leaves the state as is. -/
inductive Reaches : MState → Prop
  | init : Reaches initial_state
  | run_step (κ : Int → csignal → Bool) (now fork_pid : Int) (args : List String)
      {s : MState} : Reaches s → Reaches (perform_run κ now fork_pid args s).state
  | stop_step (κ : Int → csignal → Bool) (now pid : Int) {s : MState} :
      Reaches s → Reaches (perform_stop κ now pid s).1
  | resume_step (κ : Int → csignal → Bool) (now pid : Int) {s : MState} :
      Reaches s → Reaches (perform_resume κ now pid s).1
  | kill_step (κ : Int → csignal → Bool) (now pid : Int) {s : MState} :
      Reaches s → Reaches (perform_kill κ now pid s).1
  | list_step {s : MState} : Reaches s → Reaches s
  | exit_step (κ : Int → csignal → Bool) {s : MState} :
      Reaches s → Reaches (perform_exit κ s).1
  | sched_step (κ : Int → csignal → Bool) (now : Int) {s : MState} :
      Reaches s → Reaches (scheduler κ now s).1
  | reap_step (now : Int) (pids : List Int) {s : MState} :
      Reaches s → Reaches (sigchld_handler now pids s)
  | tick_step (κ : Int → csignal → Bool) (now : Int) {s : MState} :
      Reaches s → Reaches (main_tick κ now s).1

/-- States reachable without ever issuing the `exit` command. -/
inductive ReachesNoExit : MState → Prop
  | init : ReachesNoExit initial_state
  | run_step (κ : Int → csignal → Bool) (now fork_pid : Int) (args : List String)
      {s : MState} : ReachesNoExit s →
      ReachesNoExit (perform_run κ now fork_pid args s).state
  | stop_step (κ : Int → csignal → Bool) (now pid : Int) {s : MState} :
      ReachesNoExit s → ReachesNoExit (perform_stop κ now pid s).1
  | resume_step (κ : Int → csignal → Bool) (now pid : Int) {s : MState} :
      ReachesNoExit s → ReachesNoExit (perform_resume κ now pid s).1
  | kill_step (κ : Int → csignal → Bool) (now pid : Int) {s : MState} :
      ReachesNoExit s → ReachesNoExit (perform_kill κ now pid s).1
  | list_step {s : MState} : ReachesNoExit s → ReachesNoExit s
  | sched_step (κ : Int → csignal → Bool) (now : Int) {s : MState} :
      ReachesNoExit s → ReachesNoExit (scheduler κ now s).1
  | reap_step (now : Int) (pids : List Int) {s : MState} :
      ReachesNoExit s → ReachesNoExit (sigchld_handler now pids s)
  | tick_step (κ : Int → csignal → Bool) (now : Int) {s : MState} :
      ReachesNoExit s → ReachesNoExit (main_tick κ now s).1

theorem getD_replicate_default {α : Type} [Inhabited α] (n i : Nat) :
    (List.replicate n (default : α)).getD i default = default := by
  induction n generalizing i with
  | zero => cases i <;> rfl
  | succ m ih =>
    cases i with
    | zero => rfl
    | succ k => exact ih k

/-- The initial state satisfies the full invariant. -/
theorem minv_initial : MInv initial_state := by
  refine ⟨⟨?_, ?_⟩, ?_⟩
  · show (-1 : Int) < ((List.replicate MAX_PROCESSES (default : process_record)).length : Int)
    rw [List.length_replicate]
    decide
  · intro i hi hr
    have hr2 : ((List.replicate MAX_PROCESSES (default : process_record)).getD i
        default).status = process_status.RUNNING := hr
    rw [getD_replicate_default] at hr2
    exact absurd hr2 (by decide)
  · intro h0
    exact absurd h0 (by decide)

/-- Every reachable state (even through `exit`) satisfies the weak
invariant. -/
theorem reaches_winv {s : MState} (h : Reaches s) : WInv s := by
  induction h with
  | init => exact minv_initial.1
  | run_step κ now fork_pid args h ih => exact (perform_run_pres κ now fork_pid args ih).1
  | stop_step κ now pid h ih => exact (perform_stop_pres κ now pid ih).1
  | resume_step κ now pid h ih => exact (perform_resume_pres κ now pid ih).1
  | kill_step κ now pid h ih => exact (perform_kill_pres κ now pid ih).1
  | list_step h ih => exact ih
  | exit_step κ h ih => exact perform_exit_pres κ ih
  | sched_step κ now h ih => exact (scheduler_pres κ now ih).1
  | reap_step now pids h ih => exact (sigchld_handler_pres now pids ih).1
  | tick_step κ now h ih => exact (main_tick_pres κ now ih).1

/-- Every state reachable without `exit` satisfies the full invariant. -/
theorem reachesNoExit_minv {s : MState} (h : ReachesNoExit s) : MInv s := by
  induction h with
  | init => exact minv_initial
  | run_step κ now fork_pid args h ih =>
    exact ⟨(perform_run_pres κ now fork_pid args ih.1).1,
      (perform_run_pres κ now fork_pid args ih.1).2 ih.2⟩
  | stop_step κ now pid h ih =>
    exact ⟨(perform_stop_pres κ now pid ih.1).1,
      (perform_stop_pres κ now pid ih.1).2 ih.2⟩
  | resume_step κ now pid h ih =>
    exact ⟨(perform_resume_pres κ now pid ih.1).1,
      (perform_resume_pres κ now pid ih.1).2 ih.2⟩
  | kill_step κ now pid h ih =>
    exact ⟨(perform_kill_pres κ now pid ih.1).1,
      (perform_kill_pres κ now pid ih.1).2 ih.2⟩
  | list_step h ih => exact ih
  | sched_step κ now h ih =>
    exact ⟨(scheduler_pres κ now ih.1).1, (scheduler_pres κ now ih.1).2 ih.2⟩
  | reap_step now pids h ih =>
    exact ⟨(sigchld_handler_pres now pids ih.1).1,
      (sigchld_handler_pres now pids ih.1).2 ih.2⟩
  | tick_step κ now h ih =>
    exact ⟨(main_tick_pres κ now ih.1).1, (main_tick_pres κ now ih.1).2 ih.2⟩

/-! ### Further helper lemmas -/

theorem getD_set_oob {α : Type} [Inhabited α] (l : List α) (n : Nat) (a : α)
    (h : l.length ≤ n) : l.set n a = l := by
  induction l generalizing n with
  | nil => rfl
  | cons x xs ih =>
    cases n with
    | zero => simp at h
    | succ m =>
      show x :: xs.set m a = x :: xs
      rw [ih m (by simp only [List.length_cons] at h; omega)]

theorem getD_set_pid (l : List process_record) (n : Nat) (q : process_record)
    (hq : q.pid = (l.getD n default).pid) (j : Nat) :
    ((l.set n q).getD j default).pid = (l.getD j default).pid := by
  by_cases hn : l.length ≤ n
  · rw [getD_set_oob l n q hn]
  · by_cases hj : n = j
    · subst hj
      rw [getD_set_self l n q (by omega)]
      exact hq
    · rw [getD_set_ne l n j q hj]

/-- The dispatch half of the scheduler never changes any slot's pid. -/
theorem scheduler_dispatch_preserves_pid (κ : Int → csignal → Bool) (now : Int)
    (s : MState) (j : Nat) :
    ((scheduler_dispatch κ now s).1.records.getD j default).pid =
      (s.records.getD j default).pid := by
  unfold scheduler_dispatch
  by_cases hmin : find_min_runtime_process s.records < 0
  · rw [if_pos hmin]
  · rw [if_neg hmin]
    by_cases hκ : κ (s.records.getD (find_min_runtime_process s.records).toNat default).pid
        .SIGCONT = true
    · rw [if_pos hκ]
      refine getD_set_pid _ _ _ ?_ j
      rfl
    · rw [if_neg hκ]
      refine getD_set_pid _ _ _ ?_ j
      rfl

/-- A scheduler pass never changes any slot's pid. -/
theorem scheduler_preserves_pid (κ : Int → csignal → Bool) (now : Int)
    (s : MState) (j : Nat) :
    ((scheduler κ now s).1.records.getD j default).pid =
      (s.records.getD j default).pid := by
  unfold scheduler
  by_cases hrun : 0 ≤ s.running_process_index
  · rw [if_pos hrun]
    by_cases hκ : κ (s.records.getD s.running_process_index.toNat default).pid
        .SIGSTOP = true
    · rw [if_pos hκ]
      refine (scheduler_dispatch_preserves_pid κ now _ j).trans ?_
      refine getD_set_pid _ _ _ ?_ j
      by_cases he : 0 < now - s.start_time <;> simp [he]
    · rw [if_neg hκ]
  · rw [if_neg hrun]
    exact scheduler_dispatch_preserves_pid κ now s j

theorem first_status_index_zero (st : process_status) (recs : List process_record)
    (h0 : 0 < recs.length) (hs : (recs.getD 0 default).status = st) :
    first_status_index st recs = 0 := by
  cases recs with
  | nil => simp at h0
  | cons p rest =>
    rw [getD_cons_zero] at hs
    simp [first_status_index, hs]

/-! ### Concrete objects used by the claim theorems -/

/-- Signal oracle: every kill call succeeds. -/
def ktrue : Int → csignal → Bool := fun _ _ => true

/-- Signal oracle: every kill call fails. -/
def kfalse : Int → csignal → Bool := fun _ _ => false

/-- A well-formed `run` command: path `./worker`, one argument, budget 5. -/
def c1_run_args : List String := ["run", "./worker", "x", "5"]

/-- The state after booting the manager, running one worker (pid 7) and
then issuing `exit`. -/
def c1_bad_state : MState :=
  (perform_exit ktrue (perform_run ktrue 0 7 c1_run_args initial_state).state).1

/-! ### Claim C1 -/

/-- C1 (counterexample): the invariant as claimed — `running_process_index`
non-negative iff exactly that slot is RUNNING — is violated at a reachable
state.  After `run ./worker x 5` followed by `exit`, `perform_exit` marks
the running slot TERMINATED but leaves `running_process_index` pointing at
it, so the index is non-negative while no slot is RUNNING. -/
theorem C1_counterexample : Reaches c1_bad_state ∧ ¬ ClaimInvariant c1_bad_state := by
  constructor
  · exact Reaches.exit_step ktrue (Reaches.run_step ktrue 0 7 c1_run_args Reaches.init)
  · intro h
    obtain ⟨i, hi, hrun⟩ := h.2.1.mp (by decide)
    have hne : ∀ j, j < c1_bad_state.records.length →
        (c1_bad_state.records.getD j default).status ≠ .RUNNING := by decide
    exact hne i hi hrun

/-- C1 (amended): for every state reachable without the `exit` command, at
most one slot is RUNNING and `running_process_index` is non-negative iff
exactly that slot is RUNNING; for every reachable state including those
passing through `exit`, at most one slot is RUNNING (after `exit` the
index may keep pointing at a now-TERMINATED slot, which is the only
violation, exhibited by the counterexample). -/
theorem C1_amended : ∀ s : MState,
    (ReachesNoExit s → ClaimInvariant s) ∧
    (Reaches s → ∀ i j, i < s.records.length → j < s.records.length →
      (s.records.getD i default).status = .RUNNING →
      (s.records.getD j default).status = .RUNNING → i = j) := by
  intro s
  constructor
  · intro h
    exact claimInvariant_of_minv (reachesNoExit_minv h)
  · intro h i j hi hj hri hrj
    have hS := (reaches_winv h).2
    have h1 := hS i hi hri
    have h2 := hS j hj hrj
    omega

/-- C1 witness: the amended theorem applied to the initial state. -/
theorem C1_amended_witness : ClaimInvariant initial_state :=
  (C1_amended initial_state).1 ReachesNoExit.init

/-! ### Claim C2 -/

/-- The spec's SJF example: READY slots with runtimes [5, 2, 2, 8] at
indices [0, 1, 2, 3]. -/
def c2_sjf_table : List process_record :=
  [{ pid := 1, status := .READY, remaining_runtime := 5 },
   { pid := 2, status := .READY, remaining_runtime := 2 },
   { pid := 3, status := .READY, remaining_runtime := 2 },
   { pid := 4, status := .READY, remaining_runtime := 8 }]

/-- A table whose only READY slot has remaining runtime INT_MAX, the
sentinel that initialises the scan of `find_min_runtime_process`. -/
def c2_intmax_table : List process_record :=
  (List.replicate MAX_PROCESSES (default : process_record)).set 0
    { pid := 1, status := .READY, remaining_runtime := 2147483647 }

/-- C2 (counterexample): the claim says a READY slot yields no selection
only when no candidate is present, but a READY slot whose remaining
runtime equals the INT_MAX sentinel is never selected: the comparison
`remaining_runtime < min_runtime` is strict and `min_runtime` starts at
INT_MAX, so the scan returns -1 although a READY candidate exists. -/
theorem C2_counterexample :
    0 < c2_intmax_table.length ∧
    (c2_intmax_table.getD 0 default).status = .READY ∧
    find_min_runtime_process c2_intmax_table = -1 :=
  ⟨by decide, by decide, by decide⟩

/-- C2 (amended): whenever some READY slot has remaining runtime strictly
below the INT_MAX sentinel (2147483647), the scan selects a READY slot of
globally minimal remaining runtime and, among READY slots, every earlier
index has strictly larger runtime (first strict minimum, ties broken by
lowest index; negative runtimes count as smaller since the order is the
integer order); when every READY slot has runtime at least INT_MAX — in
particular when there is no READY slot — no selection is made (-1); on
READY runtimes [5, 2, 2, 8] at indices [0, 1, 2, 3] it selects index 1. -/
theorem C2_amended :
    (∀ recs : List process_record,
      ((∃ j, j < recs.length ∧ (recs.getD j default).status = .READY ∧
          (recs.getD j default).remaining_runtime < C_INT_MAX) →
        0 ≤ find_min_runtime_process recs ∧
        (find_min_runtime_process recs).toNat < recs.length ∧
        (recs.getD (find_min_runtime_process recs).toNat default).status = .READY ∧
        (∀ k, k < recs.length → (recs.getD k default).status = .READY →
          (recs.getD (find_min_runtime_process recs).toNat default).remaining_runtime ≤
            (recs.getD k default).remaining_runtime) ∧
        (∀ k, k < (find_min_runtime_process recs).toNat →
          (recs.getD k default).status = .READY →
          (recs.getD (find_min_runtime_process recs).toNat default).remaining_runtime <
            (recs.getD k default).remaining_runtime)) ∧
      ((∀ j, j < recs.length → (recs.getD j default).status = .READY →
          C_INT_MAX ≤ (recs.getD j default).remaining_runtime) →
        find_min_runtime_process recs = -1)) ∧
    find_min_runtime_process c2_sjf_table = 1 := by
  constructor
  · intro recs
    constructor
    · intro hex
      obtain ⟨j, hj1, hj2, hj3, hj4, hj5, hj6⟩ :=
        find_min_aux_found recs 0 C_INT_MAX (-1) hex
      have hval : find_min_runtime_process recs = (j : Int) := by
        simpa [find_min_runtime_process] using hj2
      rw [hval]
      simp only [Int.toNat_ofNat]
      exact ⟨by omega, hj1, hj3, hj5, hj6⟩
    · intro hall
      exact find_min_aux_none recs 0 C_INT_MAX (-1) hall
  · decide

/-- C2 witness: the amended theorem applied to the [5, 2, 2, 8] table. -/
theorem C2_amended_witness :
    0 ≤ find_min_runtime_process c2_sjf_table ∧
    (find_min_runtime_process c2_sjf_table).toNat < c2_sjf_table.length ∧
    (c2_sjf_table.getD (find_min_runtime_process c2_sjf_table).toNat default).status
      = .READY := by
  have h := (C2_amended.1 c2_sjf_table).1 ⟨1, by decide, by decide, by decide⟩
  exact ⟨h.1, h.2.1, h.2.2.1⟩

/-! ### Claim C3 -/

/-- C3: slot allocation for `run` returns the first UNUSED slot; if none
exists, the first TERMINATED slot; with a table of only
RUNNING/READY/STOPPED slots (neither kind exists) `run` is rejected with
TableFull leaving everything unchanged; and with a table of only
TERMINATED slots a well-formed `run` succeeds and reuses the lowest-index
slot (index 0), writing the new worker's pid there. -/
theorem C3_alloc_policy :
    (∀ recs : List process_record,
      (∃ i, i < recs.length ∧ (recs.getD i default).status = .UNUSED) →
        0 ≤ alloc_index recs ∧ (alloc_index recs).toNat < recs.length ∧
        (recs.getD (alloc_index recs).toNat default).status = .UNUSED ∧
        ∀ j, j < (alloc_index recs).toNat → (recs.getD j default).status ≠ .UNUSED) ∧
    (∀ recs : List process_record,
      (∀ i, i < recs.length → (recs.getD i default).status ≠ .UNUSED) →
      (∃ i, i < recs.length ∧ (recs.getD i default).status = .TERMINATED) →
        0 ≤ alloc_index recs ∧ (alloc_index recs).toNat < recs.length ∧
        (recs.getD (alloc_index recs).toNat default).status = .TERMINATED ∧
        ∀ j, j < (alloc_index recs).toNat → (recs.getD j default).status ≠ .TERMINATED) ∧
    (∀ (κ : Int → csignal → Bool) (now fork_pid : Int) (args : List String)
        (s : MState),
      4 ≤ args.length → 0 < atoi (args.getD 3 "") →
      (∀ i, i < s.records.length →
        (s.records.getD i default).status = .RUNNING ∨
        (s.records.getD i default).status = .READY ∨
        (s.records.getD i default).status = .STOPPED) →
      perform_run κ now fork_pid args s =
        { state := s, sent := [], spawned := false, res := .table_full }) ∧
    (∀ (κ : Int → csignal → Bool) (now fork_pid : Int) (args : List String)
        (s : MState),
      4 ≤ args.length → 0 < atoi (args.getD 3 "") → 0 ≤ fork_pid →
      s.running_process_index < 0 → 0 < s.records.length →
      (∀ i, i < s.records.length → (s.records.getD i default).status = .TERMINATED) →
        alloc_index s.records = 0 ∧
        (perform_run κ now fork_pid args s).res = .ok ∧
        ((perform_run κ now fork_pid args s).state.records.getD 0 default).pid
          = fork_pid) := by
  refine ⟨?_, ?_, ?_, ?_⟩
  · intro recs hex
    rcases first_status_index_spec .UNUSED recs with ⟨h1, h2⟩ | ⟨h1, h2, h3, h4⟩
    · obtain ⟨i, hi, hs⟩ := hex
      exact absurd hs (h2 i hi)
    · have halloc : alloc_index recs = first_status_index .UNUSED recs := by
        simp only [alloc_index, get_unused_process_index]
        rw [if_neg (by omega)]
      rw [halloc]
      exact ⟨h1, h2, h3, h4⟩
  · intro recs hnou hex
    have hu : first_status_index .UNUSED recs = -1 := by
      rcases first_status_index_spec .UNUSED recs with ⟨h1, _⟩ | ⟨_, h2, h3, _⟩
      · exact h1
      · exact absurd h3 (hnou _ h2)
    have halloc : alloc_index recs = first_status_index .TERMINATED recs := by
      simp only [alloc_index, get_unused_process_index, hu, get_terminated_process_index]
      norm_num
    rcases first_status_index_spec .TERMINATED recs with ⟨h1, h2⟩ | ⟨h1, h2, h3, h4⟩
    · obtain ⟨i, hi, hs⟩ := hex
      exact absurd hs (h2 i hi)
    · rw [halloc]
      exact ⟨h1, h2, h3, h4⟩
  · intro κ now fork_pid args s hlen hbud hall
    have hu : first_status_index .UNUSED s.records = -1 := by
      rcases first_status_index_spec .UNUSED s.records with ⟨h1, _⟩ | ⟨_, h2, h3, _⟩
      · exact h1
      · rcases hall _ h2 with h | h | h <;> rw [h] at h3 <;> exact absurd h3 (by decide)
    have ht : first_status_index .TERMINATED s.records = -1 := by
      rcases first_status_index_spec .TERMINATED s.records with ⟨h1, _⟩ | ⟨_, h2, h3, _⟩
      · exact h1
      · rcases hall _ h2 with h | h | h <;> rw [h] at h3 <;> exact absurd h3 (by decide)
    have halloc : alloc_index s.records = -1 := by
      simp only [alloc_index, get_unused_process_index, hu, get_terminated_process_index, ht]
      norm_num
    simp only [perform_run, halloc]
    rw [if_neg (by omega), if_neg (by omega), if_pos (by norm_num)]
  · intro κ now fork_pid args s hlen hbud hfork hrun hpos hall
    have hu : first_status_index .UNUSED s.records = -1 := by
      rcases first_status_index_spec .UNUSED s.records with ⟨h1, _⟩ | ⟨_, h2, h3, _⟩
      · exact h1
      · rw [hall _ h2] at h3
        exact absurd h3 (by decide)
    have ht : first_status_index .TERMINATED s.records = 0 :=
      first_status_index_zero .TERMINATED s.records hpos (hall 0 hpos)
    have halloc : alloc_index s.records = 0 := by
      simp only [alloc_index, get_unused_process_index, hu, get_terminated_process_index, ht]
      norm_num
    refine ⟨halloc, ?_, ?_⟩
    · simp only [perform_run, halloc]
      rw [if_neg (by omega), if_neg (by omega), if_neg (by norm_num), if_neg (by omega),
        if_pos hrun]
    · simp only [perform_run, halloc]
      rw [if_neg (by omega), if_neg (by omega), if_neg (by norm_num), if_neg (by omega),
        if_pos hrun]
      show (((scheduler κ now _).1.records.getD 0 default)).pid = fork_pid
      rw [scheduler_preserves_pid]
      show ((s.records.set 0
        { pid := fork_pid, status := process_status.RUNNING
          remaining_runtime := atoi (args.getD 3 "") }).getD 0 default).pid = fork_pid
      rw [getD_set_self s.records 0 _ hpos]

/-- A one-slot table holding a TERMINATED record, idle manager. -/
def c3_term_state : MState :=
  { records := [{ pid := 3, status := .TERMINATED, remaining_runtime := 1 }]
    running_process_index := -1
    start_time := 0 }

/-- A one-slot table holding a RUNNING record. -/
def c3_run_state : MState :=
  { records := [{ pid := 3, status := .RUNNING, remaining_runtime := 1 }]
    running_process_index := 0
    start_time := 0 }

/-- C3 witness: the policy applied to concrete one-slot tables. -/
theorem C3_alloc_policy_witness :
    alloc_index c3_term_state.records = 0 ∧
    (perform_run ktrue 0 9 c1_run_args c3_term_state).res = .ok ∧
    (perform_run ktrue 0 9 c1_run_args c3_run_state).res = .table_full := by
  have h1 := C3_alloc_policy.2.2.2 ktrue 0 9 c1_run_args c3_term_state
    (by decide) (by decide) (by decide) (by decide) (by decide) (by decide)
  have h2 := C3_alloc_policy.2.2.1 ktrue 0 9 c1_run_args c3_run_state
    (by decide) (by decide) (by decide)
  refine ⟨h1.1, h1.2.1, ?_⟩
  rw [h2]

/-! ### Claim C4 -/

/-- A `run` command with two program arguments: its last token parses to a
non-positive number, but its fourth token is the positive 7. -/
def c4_args : List String := ["run", "./p", "a", "7", "0"]

/-- C4 (counterexample): the budget is not taken from the last token.  For
`run ./p a 7 0` the last token is "0" (non-positive, so the claim demands
rejection with no table change and no spawn), yet the code reads the
budget from `args[3]` = "7" and accepts the command, spawning a worker and
changing the table. -/
theorem C4_counterexample :
    atoi (c4_args.getD (c4_args.length - 1) "") ≤ 0 ∧
    (perform_run ktrue 0 9 c4_args initial_state).res = .ok ∧
    (perform_run ktrue 0 9 c4_args initial_state).spawned = true ∧
    (perform_run ktrue 0 9 c4_args initial_state).state ≠ initial_state :=
  ⟨by decide, by decide, by decide, by decide⟩

/-- C4 (amended): the budget of a `run` command is read from the fourth
token (`args[3]`), not from the last token; `run` is rejected — no table
change, no signal, no spawn — exactly when fewer than four tokens are
present or the fourth token does not parse to a positive integer. -/
theorem C4_amended : ∀ (κ : Int → csignal → Bool) (now fork_pid : Int)
    (args : List String) (s : MState),
    ((args.length < 4 ∨ atoi (args.getD 3 "") ≤ 0) →
      (perform_run κ now fork_pid args s).state = s ∧
      (perform_run κ now fork_pid args s).sent = [] ∧
      (perform_run κ now fork_pid args s).spawned = false ∧
      ((perform_run κ now fork_pid args s).res = .invalid_args ∨
       (perform_run κ now fork_pid args s).res = .invalid_runtime)) ∧
    (4 ≤ args.length → 0 < atoi (args.getD 3 "") →
      (perform_run κ now fork_pid args s).res ≠ .invalid_args ∧
      (perform_run κ now fork_pid args s).res ≠ .invalid_runtime) := by
  intro κ now fork_pid args s
  constructor
  · intro h
    by_cases h1 : args.length < 4
    · unfold perform_run
      rw [if_pos h1]
      exact ⟨rfl, rfl, rfl, Or.inl rfl⟩
    · have h2 : atoi (args.getD 3 "") ≤ 0 := by
        rcases h with h | h
        · omega
        · exact h
      unfold perform_run
      rw [if_neg h1, if_pos h2]
      exact ⟨rfl, rfl, rfl, Or.inr rfl⟩
  · intro h1 h2
    unfold perform_run
    rw [if_neg (show ¬ args.length < 4 by omega),
      if_neg (show ¬ atoi (args.getD 3 "") ≤ 0 by omega)]
    by_cases h3 : alloc_index s.records < 0
    · rw [if_pos h3]
      exact ⟨(fun h => nomatch h), (fun h => nomatch h)⟩
    · rw [if_neg h3]
      by_cases h4 : fork_pid < 0
      · rw [if_pos h4]
        exact ⟨(fun h => nomatch h), (fun h => nomatch h)⟩
      · rw [if_neg h4]
        by_cases h5 : s.running_process_index < 0
        · rw [if_pos h5]
          exact ⟨(fun h => nomatch h), (fun h => nomatch h)⟩
        · rw [if_neg h5]
          by_cases h6 : κ fork_pid .SIGSTOP = true
          · rw [if_pos h6]
            exact ⟨(fun h => nomatch h), (fun h => nomatch h)⟩
          · rw [if_neg h6]
            exact ⟨(fun h => nomatch h), (fun h => nomatch h)⟩

/-- C4 witness: a one-token `run` is rejected without touching the table,
and a well-formed `run` passes validation. -/
theorem C4_amended_witness :
    (perform_run ktrue 0 9 ["run"] initial_state).state = initial_state ∧
    (perform_run ktrue 0 9 ["run"] initial_state).spawned = false ∧
    (perform_run ktrue 0 9 c1_run_args initial_state).res ≠ .invalid_args := by
  have h1 := (C4_amended ktrue 0 9 ["run"] initial_state).1 (Or.inl (by decide))
  have h2 := (C4_amended ktrue 0 9 c1_run_args initial_state).2 (by decide) (by decide)
  exact ⟨h1.1, h1.2.2.1, h2.1⟩

/-! ### Claim C5 -/

/-- C5: in a scheduler pass with a running slot whose SIGSTOP request
fails, the pass aborts after the failed call: the whole state — the
running slot's status and remaining runtime, `running_process_index` and
the dispatch clock — is exactly as before, no further slot is picked or
dispatched, and the only signal attempted is that SIGSTOP. -/
theorem C5_sigstop_failure_aborts : ∀ (κ : Int → csignal → Bool) (now : Int)
    (s : MState),
    0 ≤ s.running_process_index →
    κ (s.records.getD s.running_process_index.toNat default).pid .SIGSTOP = false →
    scheduler κ now s =
      (s, [((s.records.getD s.running_process_index.toNat default).pid, .SIGSTOP)]) := by
  intro κ now s hrun hκ
  unfold scheduler
  rw [if_pos hrun, if_neg (by simp only [hκ]; decide)]

/-- C5 witness: the abort on a concrete one-slot running state with an
always-failing signal oracle. -/
theorem C5_sigstop_failure_aborts_witness :
    scheduler kfalse 5 c3_run_state = (c3_run_state, [(3, .SIGSTOP)]) := by
  have h := C5_sigstop_failure_aborts kfalse 5 c3_run_state (by decide) (by decide)
  rw [h]
  decide

/-! ### Claim C6 -/

/-- C6: `kill` on an id whose slot (the first slot carrying that pid) is
already TERMINATED reports InvalidState, sends no signal, and leaves the
entire state — statuses, runtimes, `running_process_index`, dispatch
clock — unchanged. -/
theorem C6_kill_terminated : ∀ (κ : Int → csignal → Bool) (now pid : Int)
    (s : MState),
    0 < pid → 0 ≤ find_pid_index pid s.records →
    (s.records.getD (find_pid_index pid s.records).toNat default).status = .TERMINATED →
    perform_kill κ now pid s = (s, [], .invalid_state) := by
  intro κ now pid s hpid hfound hterm
  unfold perform_kill
  rw [if_neg (by omega), if_pos hfound, if_neg (by simp only [hterm]; decide)]

/-- C6 witness: killing the terminated pid 3 in a concrete table. -/
theorem C6_kill_terminated_witness :
    perform_kill ktrue 5 3 c3_term_state = (c3_term_state, [], .invalid_state) := by
  have h := C6_kill_terminated ktrue 5 3 c3_term_state (by decide) (by decide) (by decide)
  rw [h]

/-! ### Claim C7 -/

/-- C7: the runtime-accounting fold of the main loop is idempotent — when
no wall-clock time has elapsed (`now - start_time ≤ 0`) it is a no-op, and
applying it twice at the same instant produces exactly the state of
applying it once (the second application changes `remaining_runtime` by
nothing). -/
theorem C7_fold_idempotent : ∀ (κ : Int → csignal → Bool) (now : Int) (s : MState),
    0 ≤ s.running_process_index →
    (now - s.start_time ≤ 0 → main_tick κ now s = (s, [])) ∧
    main_tick κ now (main_tick κ now s).1 = ((main_tick κ now s).1, []) := by
  intro κ now s hrun
  constructor
  · intro he
    unfold main_tick
    rw [if_pos hrun, if_neg (by omega)]
  · by_cases he : 0 < now - s.start_time
    · have hr2 : (main_tick κ now s).1.running_process_index = s.running_process_index := by
        unfold main_tick
        rw [if_pos hrun, if_pos he]
      have hst : (main_tick κ now s).1.start_time = now := by
        unfold main_tick
        rw [if_pos hrun, if_pos he]
      conv_lhs => rw [main_tick]
      rw [if_pos (show 0 ≤ (main_tick κ now s).1.running_process_index by
          rw [hr2]; exact hrun),
        if_neg (show ¬ 0 < now - (main_tick κ now s).1.start_time by rw [hst]; omega)]
    · have h0 : main_tick κ now s = (s, []) := by
        unfold main_tick
        rw [if_pos hrun, if_neg he]
      rw [h0]
      show main_tick κ now s = (s, [])
      exact h0

/-- C7 witness: the fold on a concrete running state at zero elapsed
time. -/
theorem C7_fold_idempotent_witness :
    main_tick ktrue 0 c3_run_state = (c3_run_state, []) ∧
    main_tick ktrue 0 (main_tick ktrue 0 c3_run_state).1 =
      ((main_tick ktrue 0 c3_run_state).1, []) := by
  have h := C7_fold_idempotent ktrue 0 c3_run_state (by decide)
  exact ⟨h.1 (by decide), h.2⟩

/-! ### Claim C8 -/

/-- `perform_exit` does not depend on which kill calls succeed: a failed
terminate signal is only logged and the loop continues. -/
theorem perform_exit_loop_kappa (κ κ' : Int → csignal → Bool)
    (l : List process_record) : perform_exit_loop κ l = perform_exit_loop κ' l := by
  induction l with
  | nil => rfl
  | cons p rest ih => simp only [perform_exit_loop, ih]

/-- The terminate signals sent by `perform_exit`: one per slot that is
neither UNUSED nor TERMINATED, in slot order. -/
theorem perform_exit_loop_sent (κ : Int → csignal → Bool)
    (l : List process_record) :
    (perform_exit_loop κ l).2 =
      (l.filter (fun p => decide (p.status ≠ .UNUSED ∧ p.status ≠ .TERMINATED))).map
        (fun p => (p.pid, csignal.SIGTERM)) := by
  induction l with
  | nil => rfl
  | cons p rest ih =>
    by_cases hc : p.status ≠ .UNUSED ∧ p.status ≠ .TERMINATED
    · simp [perform_exit_loop, hc, ih, List.filter_cons]
    · simp [perform_exit_loop, hc, ih, List.filter_cons]

/-- C8: the `exit` command sends a terminate signal to exactly the slots
whose status is neither UNUSED nor TERMINATED (in slot order), marks each
such slot TERMINATED leaving every other slot untouched, and sets the main
loop's exit flag so the process stops; a failed terminate signal on any
slot changes nothing — the resulting state and signal trace are the same
for every pattern of signal failures, so exit proceeds over the remaining
slots regardless. -/
theorem C8_exit : ∀ (κ κ' : Int → csignal → Bool) (s : MState)
    (now fork_pid : Int),
    perform_exit κ s = perform_exit κ' s ∧
    (perform_exit κ s).2 =
      (s.records.filter
        (fun p => decide (p.status ≠ .UNUSED ∧ p.status ≠ .TERMINATED))).map
        (fun p => (p.pid, csignal.SIGTERM)) ∧
    (perform_exit κ s).1.records.length = s.records.length ∧
    (∀ i, i < s.records.length →
      (perform_exit κ s).1.records.getD i default =
        (if (s.records.getD i default).status ≠ .UNUSED ∧
            (s.records.getD i default).status ≠ .TERMINATED then
          { s.records.getD i default with status := .TERMINATED }
        else s.records.getD i default)) ∧
    (perform_exit κ s).1.running_process_index = s.running_process_index ∧
    (main_command_step κ now fork_pid ["exit"] s).2 = true ∧
    (main_command_step κ now fork_pid ["exit"] s).1 = (perform_exit κ s).1 := by
  intro κ κ' s now fork_pid
  have hstep : main_command_step κ now fork_pid ["exit"] s = ((perform_exit κ s).1, true) := by
    unfold main_command_step
    rw [if_neg (by decide), if_neg (by decide), if_neg (by decide), if_neg (by decide),
      if_neg (by decide), if_pos (by decide)]
  refine ⟨?_, perform_exit_loop_sent κ s.records, perform_exit_loop_length κ s.records,
    ?_, rfl, ?_, ?_⟩
  · unfold perform_exit
    rw [perform_exit_loop_kappa κ κ' s.records]
  · intro i hi
    exact perform_exit_loop_getD κ s.records i hi
  · rw [hstep]
  · rw [hstep]

/-- C8 witness: exit on a concrete table with one RUNNING slot and a
failing signal oracle. -/
theorem C8_exit_witness :
    perform_exit kfalse c3_run_state = perform_exit ktrue c3_run_state ∧
    (perform_exit kfalse c3_run_state).2 = [(3, .SIGTERM)] ∧
    (main_command_step kfalse 0 0 ["exit"] c3_run_state).2 = true := by
  have h := C8_exit kfalse ktrue c3_run_state 0 0
  refine ⟨h.1, ?_, h.2.2.2.2.2.1⟩
  rw [h.2.1]
  decide

/-! ### Claim C9 -/

/-- C9 (implicit behaviour, confirmed): `kill` on a found, non-TERMINATED
slot folds elapsed time unconditionally into the killed slot, even when it
is not the running one.  With another slot running and positive elapsed
time, the killed slot's remaining runtime is charged `now - start_time`,
the dispatch clock is reset to `now` (erasing the elapsed time the running
slot would have been charged at its next fold), while the running slot's
record and `running_process_index` stay unchanged and the only signal sent
is the terminate signal. -/
theorem C9_kill_nonrunning_fold : ∀ (κ : Int → csignal → Bool) (now pid : Int)
    (s : MState),
    0 < pid →
    0 ≤ find_pid_index pid s.records →
    (s.records.getD (find_pid_index pid s.records).toNat default).status ≠ .TERMINATED →
    κ (s.records.getD (find_pid_index pid s.records).toNat default).pid .SIGTERM = true →
    find_pid_index pid s.records ≠ s.running_process_index →
    0 ≤ s.running_process_index →
    0 < now - s.start_time →
    ((perform_kill κ now pid s).1.records.getD
        (find_pid_index pid s.records).toNat default =
      { pid := (s.records.getD (find_pid_index pid s.records).toNat default).pid
        status := .TERMINATED
        remaining_runtime :=
          (s.records.getD (find_pid_index pid s.records).toNat default).remaining_runtime
            - (now - s.start_time) }) ∧
    (perform_kill κ now pid s).1.start_time = now ∧
    (perform_kill κ now pid s).1.running_process_index = s.running_process_index ∧
    (perform_kill κ now pid s).1.records.getD s.running_process_index.toNat default =
      s.records.getD s.running_process_index.toNat default ∧
    (perform_kill κ now pid s).2.1 =
      [((s.records.getD (find_pid_index pid s.records).toNat default).pid, .SIGTERM)] ∧
    (perform_kill κ now pid s).2.2 = .ok := by
  intro κ now pid s hpid hfound hterm hκ hne hrun he
  have hlt := (find_pid_index_spec pid s.records hfound).1
  unfold perform_kill
  rw [if_neg (show ¬ pid ≤ 0 by omega), if_pos hfound, if_pos hterm, if_pos hκ,
    if_neg hne]
  refine ⟨?_, ?_, rfl, ?_, rfl, rfl⟩
  · rw [getD_set_self s.records _ _ hlt, if_pos he]
  · show (if 0 < now - s.start_time then now else s.start_time) = now
    rw [if_pos he]
  · rw [getD_set_ne s.records _ _ _
      (show (find_pid_index pid s.records).toNat ≠ s.running_process_index.toNat by omega)]

/-- Table for the C9 witness: slot 0 RUNNING (pid 5), slot 1 READY
(pid 7), `running_process_index = 0`, dispatch clock 0. -/
def c9_state : MState :=
  { records := [{ pid := 5, status := .RUNNING, remaining_runtime := 10 },
                { pid := 7, status := .READY, remaining_runtime := 6 }]
    running_process_index := 0
    start_time := 0 }

/-- C9 witness: killing the non-running pid 7 at time 4. -/
theorem C9_kill_nonrunning_fold_witness :
    (perform_kill ktrue 4 7 c9_state).1.start_time = 4 ∧
    (perform_kill ktrue 4 7 c9_state).1.running_process_index =
      c9_state.running_process_index ∧
    (perform_kill ktrue 4 7 c9_state).1.records.getD
        c9_state.running_process_index.toNat default =
      c9_state.records.getD c9_state.running_process_index.toNat default ∧
    (perform_kill ktrue 4 7 c9_state).2.2 = .ok := by
  have h := C9_kill_nonrunning_fold ktrue 4 7 c9_state (by decide) (by decide)
    (by decide) (by decide) (by decide) (by decide) (by decide)
  exact ⟨h.2.1, h.2.2.1, h.2.2.2.1, h.2.2.2.2.2⟩

/-! ### Claim C10 -/

/-- C10 (implicit behaviour, confirmed): when validation and slot
allocation succeed but `fork` fails, `perform_run` returns before writing
anything: the table (including the allocated slot), the running index and
the dispatch clock are exactly as before, no signal is sent and no worker
is created, so the slot remains allocatable by a later `run`. -/
theorem C10_run_atomic_on_fork_failure : ∀ (κ : Int → csignal → Bool)
    (now fork_pid : Int) (args : List String) (s : MState),
    4 ≤ args.length → 0 < atoi (args.getD 3 "") → 0 ≤ alloc_index s.records →
    fork_pid < 0 →
    perform_run κ now fork_pid args s =
      { state := s, sent := [], spawned := false, res := .fork_failed } := by
  intro κ now fork_pid args s h1 h2 h3 h4
  unfold perform_run
  rw [if_neg (by omega), if_neg (by omega), if_neg (by omega), if_pos h4]

/-- C10 witness: a failing fork on a well-formed `run` against the fresh
table. -/
theorem C10_run_atomic_witness :
    perform_run ktrue 0 (-1) c1_run_args initial_state =
      { state := initial_state, sent := [], spawned := false, res := .fork_failed } :=
  C10_run_atomic_on_fork_failure ktrue 0 (-1) c1_run_args initial_state
    (by decide) (by decide) (by decide) (by decide)
